import Mathlib

/-!
Verification development for the `plainkey` platform key-data handler
(`plainkey/platform.go`) of the secboot repository.

The Go source is shallowly embedded: byte strings become `List Nat`,
fallible operations return `Except`, and the process-wide platform-key
store becomes explicit state. The external cryptographic primitives
(`crypto/hmac`, `crypto/aes`, `crypto/cipher` from the Go standard
library) are modelled as idealized deterministic functions: HMAC is an
injective keyed tag and AES-GCM is a perfectly authenticating AEAD, the
standard idealization for functional-correctness reasoning about the
envelope logic built on top of them.
-/

/-- Byte strings (`[]byte` in Go). Each entry stands for one byte. -/
abbrev Bytes := List Nat

/-- Hash algorithm identifiers (`hashAlg`, a wrapper over `crypto.Hash`).
A JSON handle may carry an identifier the runtime does not know; those
are the `unknown` values, for which `Available` reports false. -/
inductive HashAlg where
  | sha1
  | sha224
  | sha256
  | sha384
  | sha512
  | unknown (id : Nat)
deriving DecidableEq, Repr

/-- Stable on-wire identifier of a hash algorithm (used inside the AAD
encoding and to separate algorithms in the HMAC model). -/
def HashAlg.wireId : HashAlg → Nat
  | .sha1 => 4
  | .sha224 => 12
  | .sha256 => 11
  | .sha384 => 13
  | .sha512 => 14
  | .unknown id => id

/-- `hashAlg.Available()`: whether the runtime can instantiate the
digest. Unknown identifiers are unavailable. -/
def HashAlg.avail : HashAlg → Bool
  | .unknown _ => false
  | _ => true

/-- Idealized model of the external primitive `hmac.New(alg.New, key)`
followed by `Write(msg)`/`Sum(nil)`: a deterministic keyed tag, injective
in `(alg, key, msg)`, modelling the collision resistance of HMAC. -/
def hmacSum (alg : HashAlg) (key msg : Bytes) : Bytes :=
  alg.wireId :: key.length :: (key ++ msg)

/-- A mixing fold over a byte string, the building block of the modelled
key-derivation function. -/
def foldMix (bs : Bytes) (acc : Nat) : Nat :=
  bs.foldl (fun a b => (a * 131 + b + 1) % (2 ^ 64)) acc

/-- Modelled from the spec: `deriveAESKey(key, salt)` (§4.2), a
deterministic labelled HMAC/HKDF-style expansion over `key` with `salt`
as the variable input, producing a 32-byte AES-256 key. The Go
definition lives in `plainkey/plainkey.go`, which is not part of the
provided sources. -/
def deriveAESKey (key salt : Bytes) : Bytes :=
  (List.range 32).map fun i => foldMix salt (foldMix key (i + 7919)) % 256

/-- Modelled from the spec: the shared constant `SYM_KEY_SALT_SIZE`
(glossary; defined in `plainkey/plainkey.go`, not in the provided
sources): the number of leading bytes of the handle nonce consumed as
the KDF salt. -/
def symKeySaltSize : Nat := 32

/-- Result of `aes.NewCipher`: a block cipher keyed with `key`. -/
structure AESBlock where
  key : Bytes
deriving DecidableEq, Repr

/-- Model of the external `aes.NewCipher(key)`: succeeds exactly for the
AES key sizes 16, 24 and 32 bytes. -/
def aesNewCipher (key : Bytes) : Except String AESBlock :=
  if key.length = 16 ∨ key.length = 24 ∨ key.length = 32 then .ok ⟨key⟩
  else .error "crypto/aes: invalid key size"

/-- Result of `cipher.NewGCMWithNonceSize`: an AEAD bound to a key and a
fixed nonce size. -/
structure GCM where
  key : Bytes
  nonceSize : Nat
deriving DecidableEq, Repr

/-- Model of the external `cipher.NewGCMWithNonceSize(b, size)`: Go
rejects a non-positive nonce size. -/
def gcmNew (b : AESBlock) (size : Nat) : Except String GCM :=
  if size = 0 then .error "cipher: the nonce cannot have zero length"
  else .ok ⟨b.key, size⟩

/-- Idealized model of AES-GCM `Seal`: the ciphertext determines key,
nonce, associated data and plaintext, giving perfect authentication. -/
def gcmSeal (g : GCM) (nonce plaintext aad : Bytes) : Bytes :=
  g.key.length :: nonce.length :: aad.length :: (g.key ++ nonce ++ aad ++ plaintext)

/-- Idealized model of AES-GCM `Open`: succeeds exactly on ciphertexts
sealed with the same key, nonce and associated data (a nonce whose
length differing from the nonce size of the AEAD is a failure as well). -/
def gcmOpen (g : GCM) (nonce ct aad : Bytes) : Option Bytes :=
  match ct with
  | kl :: nl :: al :: rest =>
    if nonce.length = g.nonceSize ∧ kl = g.key.length ∧ nl = nonce.length ∧ al = aad.length
        ∧ rest.take kl = g.key ∧ (rest.drop kl).take nl = nonce
        ∧ ((rest.drop kl).drop nl).take al = aad then
      some (((rest.drop kl).drop nl).drop al)
    else none
  | _ => none

/-- DER definite-length encoding of a content length. -/
def derLength (n : Nat) : Bytes :=
  if n < 128 then [n]
  else
    let ds := (Nat.digits 256 n).reverse
    (128 + ds.length) :: ds

/-- DER encoding of a non-negative INTEGER: tag `0x02`, minimal base-256
content with a leading zero byte when the high bit is set. -/
def derInt (n : Nat) : Bytes :=
  let digits := if n = 0 then [0] else (Nat.digits 256 n).reverse
  let contents := if 128 ≤ digits.headD 0 then 0 :: digits else digits
  2 :: (derLength contents.length ++ contents)

/-- `additionalData`: the record DER-encoded as the GCM associated data.
Modelled from the spec (§4.3); the Go definition lives in
`plainkey/plainkey.go`, which is not part of the provided sources. -/
structure additionalData where
  Version : Nat
  Generation : Nat
  KDFAlg : HashAlg
  AuthMode : Nat
deriving DecidableEq, Repr

/-- Modelled from the spec: `additionalData.MarshalASN1` (§4.3 / §6), a
DER SEQUENCE of `{INTEGER version, INTEGER generation, INTEGER kdfAlg,
INTEGER authMode}` in that order. -/
def marshalAAD (a : additionalData) : Bytes :=
  let body := derInt a.Version ++ derInt a.Generation
      ++ derInt a.KDFAlg.wireId ++ derInt a.AuthMode
  48 :: (derLength body.length ++ body)

/-- Model of `cryptobyte.NewBuilder`/`aad.MarshalASN1(builder)`/
`builder.Bytes()`: on the fixed-shape `additionalData` record the
builder cannot fail, but `RecoverKeys` handles its error return, so the
model keeps the `Except` shape. -/
def builderBytes (a : additionalData) : Except String Bytes :=
  .ok (marshalAAD a)

/-- `platformKeyId`: content-addressed identifier of a platform key.
Modelled from the spec (§3/§6); defined in `plainkey/plainkey.go`,
which is not part of the provided sources. -/
structure platformKeyId where
  Alg : HashAlg
  Salt : Bytes
  Digest : Bytes
deriving DecidableEq, Repr

/-- `keyData`: the record parsed from the opaque encoded handle.
Modelled from the spec (§3/§4.4/§6); defined in `plainkey/plainkey.go`,
which is not part of the provided sources. -/
structure keyData where
  Version : Nat
  PlatformKeyID : platformKeyId
  Nonce : Bytes
deriving DecidableEq, Repr

/-- The opaque encoded handle, abstracting the JSON byte string: it
either parses to a `keyData` value or fails with a parse error. -/
inductive EncodedHandle where
  | wellFormed (kd : keyData)
  | malformed (msg : String)
deriving DecidableEq, Repr

/-- Model of `json.Unmarshal(data.EncodedHandle, &kd)`. -/
def jsonUnmarshalKeyData : EncodedHandle → Except String keyData
  | .wellFormed kd => .ok kd
  | .malformed msg => .error msg

/-- `secboot.PlatformKeyData`: the input record of the host framework. -/
structure PlatformKeyData where
  EncodedHandle : EncodedHandle
  Generation : Nat
  KDFAlg : HashAlg
  AuthMode : Nat
deriving DecidableEq, Repr

/-- `secboot.PlatformHandlerErrorType` values. -/
inductive PlatformHandlerErrorType where
  | invalidData
  | uninitialized
  | unavailable
  | invalidAuthKey
deriving DecidableEq, Repr

/-- `secboot.PlatformHandlerError`: a classified handler error wrapping
an underlying cause (modelled by its message). -/
structure PlatformHandlerError where
  type : PlatformHandlerErrorType
  err : String
deriving DecidableEq, Repr

/-- An error returned by a handler operation: either wrapped in a
`secboot.PlatformHandlerError` or a plain (unwrapped) error. -/
inductive RecoverError where
  | handler (e : PlatformHandlerError)
  | plain (msg : String)
deriving DecidableEq, Repr

/-- `getPlatformKey` (platform.go:64-81) restricted to the key list read
under the lock: checks digest-algorithm availability, then scans the
candidate keys in order for the first whose HMAC over the salt equals
the digest. -/
def findMatchingKey (id : platformKeyId) : List Bytes → Except String Bytes
  | [] => .error "no key available"
  | key :: rest =>
    if hmacSum id.Alg key id.Salt = id.Digest then .ok key
    else findMatchingKey id rest

/-- `getPlatformKey` (platform.go:64-81), with the process-wide
`platformKeys` list passed explicitly (the Go code snapshots it under a
read lock). -/
def getPlatformKey (keys : List Bytes) (id : platformKeyId) : Except String Bytes :=
  if id.Alg.avail = true then findMatchingKey id keys
  else .error "digest algorithm unavailable"

/-- Message of the authentication failure of the idealized AEAD. -/
def authFailMsg : String := "cipher: message authentication failed"

/-- `platformKeyDataHandler.RecoverKeys` (platform.go:85-144), with the
process-wide key list passed explicitly. Wrapped
`PlatformHandlerError` returns become `.handler`, plain error returns
become `.plain`; `fmt.Errorf("p: %w", err)` becomes prefixing. -/
def RecoverKeys (keys : List Bytes) (data : PlatformKeyData)
    (encryptedPayload : Bytes) : Except RecoverError Bytes :=
  match jsonUnmarshalKeyData data.EncodedHandle with
  | .error e => .error (.handler ⟨.invalidData, e⟩)
  | .ok kd =>
    if kd.Nonce.length < symKeySaltSize then
      .error (.handler ⟨.invalidData, "invalid nonce size"⟩)
    else
      let aad : additionalData :=
        ⟨kd.Version, data.Generation, data.KDFAlg, data.AuthMode⟩
      match builderBytes aad with
      | .error e => .error (.handler ⟨.invalidData, "cannot serialize AAD: " ++ e⟩)
      | .ok aadBytes =>
        match getPlatformKey keys kd.PlatformKeyID with
        | .error e => .error (.handler ⟨.invalidData, "cannot select platform key: " ++ e⟩)
        | .ok key =>
          match aesNewCipher (deriveAESKey key (kd.Nonce.take symKeySaltSize)) with
          | .error e => .error (.plain ("cannot create cipher: " ++ e))
          | .ok b =>
            let nonce := kd.Nonce.drop symKeySaltSize
            match gcmNew b nonce.length with
            | .error e => .error (.plain ("cannot create AEAD: " ++ e))
            | .ok g =>
              match gcmOpen g nonce encryptedPayload aadBytes with
              | none => .error (.handler ⟨.invalidData, "cannot open payload: " ++ authFailMsg⟩)
              | some payload => .ok payload

/-- `platformKeyDataHandler.RecoverKeysWithAuthKey` (platform.go:146-148). -/
def RecoverKeysWithAuthKey (data : PlatformKeyData)
    (encryptedPayload key : Bytes) : Except RecoverError Bytes :=
  .error (.plain "unsupported action")

/-- `platformKeyDataHandler.ChangeAuthKey` (platform.go:150-152). -/
def ChangeAuthKey (data : PlatformKeyData)
    (old new : Bytes) : Except RecoverError Bytes :=
  .error (.plain "unsupported action")

/-- `getPlatformKey` with the process-wide mutable `platformKeys`
variable threaded explicitly: the function only reads the list (a
snapshot under `platformKeysMu.RLock`) and returns it unchanged. -/
def getPlatformKeyS (st : List Bytes) (id : platformKeyId) :
    List Bytes × Except String Bytes :=
  (st, getPlatformKey st id)

/-- `RecoverKeys` with the process-wide mutable `platformKeys` variable
threaded explicitly: the only access to it is the snapshot read inside
`getPlatformKey`; every return path passes the state through. -/
def RecoverKeysS (st : List Bytes) (data : PlatformKeyData)
    (encryptedPayload : Bytes) : List Bytes × Except RecoverError Bytes :=
  match jsonUnmarshalKeyData data.EncodedHandle with
  | .error e => (st, .error (.handler ⟨.invalidData, e⟩))
  | .ok kd =>
    if kd.Nonce.length < symKeySaltSize then
      (st, .error (.handler ⟨.invalidData, "invalid nonce size"⟩))
    else
      let aad : additionalData :=
        ⟨kd.Version, data.Generation, data.KDFAlg, data.AuthMode⟩
      match builderBytes aad with
      | .error e => (st, .error (.handler ⟨.invalidData, "cannot serialize AAD: " ++ e⟩))
      | .ok aadBytes =>
        let r := getPlatformKeyS st kd.PlatformKeyID
        match r.2 with
        | .error e =>
          (r.1, .error (.handler ⟨.invalidData, "cannot select platform key: " ++ e⟩))
        | .ok key =>
          match aesNewCipher (deriveAESKey key (kd.Nonce.take symKeySaltSize)) with
          | .error e => (r.1, .error (.plain ("cannot create cipher: " ++ e)))
          | .ok b =>
            let nonce := kd.Nonce.drop symKeySaltSize
            match gcmNew b nonce.length with
            | .error e => (r.1, .error (.plain ("cannot create AEAD: " ++ e)))
            | .ok g =>
              match gcmOpen g nonce encryptedPayload aadBytes with
              | none => (r.1, .error (.handler ⟨.invalidData, "cannot open payload: " ++ authFailMsg⟩))
              | some payload => (r.1, .ok payload)

/-- The heap of a running process, restricted to the backing arrays that
Go slices of `[]byte` values point into: array identifiers map to
buffer contents, and `next` is the next fresh identifier. -/
structure GoHeap where
  arrays : Nat → List Bytes
  next : Nat

/-- A Go slice header over `GoHeap`: a backing-array identifier and a
length (the slices arising here always start at offset 0). -/
structure GoSlice where
  arr : Nat
  len : Nat
deriving DecidableEq, Repr

/-- Update one backing array of a heap. -/
def updArr (f : Nat → List Bytes) (i : Nat) (v : List Bytes) : Nat → List Bytes :=
  fun j => if j = i then v else f j

/-- The elements visible through a slice header: the first `len`
entries of its backing array. This is what a reader that copied the
header (`keys := platformKeys`) iterates over. -/
def view (h : GoHeap) (s : GoSlice) : List Bytes :=
  (h.arrays s.arr).take s.len

/-- The state of the `plainkey` package store: the heap and the current
`platformKeys` slice header. -/
structure StoreState where
  heap : GoHeap
  store : GoSlice

/-- A mutation of the platform-key store: `SetPlatformKeys` or
`AddPlatformKeys` with the given argument keys. -/
inductive StoreOp where
  | set (ks : List Bytes)
  | add (ks : List Bytes)

/-- `SetPlatformKeys(keys...)` (platform.go:49-53): the variadic call
materialises the arguments in a fresh backing array and the assignment
replaces the slice header. -/
def setPlatformKeysH (σ : StoreState) (ks : List Bytes) : StoreState :=
  ⟨⟨updArr σ.heap.arrays σ.heap.next ks, σ.heap.next + 1⟩, ⟨σ.heap.next, ks.length⟩⟩

/-- `AddPlatformKeys(keys...)` (platform.go:58-62):
`platformKeys = append(platformKeys, keys...)`. When the backing array
has spare capacity, `append` writes the new elements in place past the
current length; otherwise it allocates a larger array (here with
doubling slack, whose tail cells are junk a reader never sees) and
copies. -/
def addPlatformKeysH (σ : StoreState) (ks : List Bytes) : StoreState :=
  let buf := σ.heap.arrays σ.store.arr
  if σ.store.len + ks.length ≤ buf.length then
    ⟨⟨updArr σ.heap.arrays σ.store.arr
        (buf.take σ.store.len ++ ks ++ buf.drop (σ.store.len + ks.length)),
      σ.heap.next⟩,
     ⟨σ.store.arr, σ.store.len + ks.length⟩⟩
  else
    ⟨⟨updArr σ.heap.arrays σ.heap.next
        (view σ.heap σ.store ++ ks ++ List.replicate (σ.store.len + ks.length) []),
      σ.heap.next + 1⟩,
     ⟨σ.heap.next, σ.store.len + ks.length⟩⟩

/-- Apply one store mutation. -/
def applyOp (σ : StoreState) : StoreOp → StoreState
  | .set ks => setPlatformKeysH σ ks
  | .add ks => addPlatformKeysH σ ks

/-- Apply a sequence of store mutations in order. -/
def applyOps (σ : StoreState) (ops : List StoreOp) : StoreState :=
  ops.foldl applyOp σ

/-- Well-formedness of a store state: the current slice header points
at an allocated array and its length fits the backing buffer. -/
def WFStore (σ : StoreState) : Prop :=
  σ.store.arr < σ.heap.next ∧ σ.store.len ≤ (σ.heap.arrays σ.store.arr).length

/-- The initial state of the package: no keys, one empty allocated
array. -/
def initStoreState : StoreState :=
  ⟨⟨fun _ => [], 1⟩, ⟨0, 0⟩⟩

/-- Modelled from the spec: the sealing construction of §3-§4 (the
producing side lives outside the provided sources): derive the AES key
from the platform key and the leading `symKeySaltSize` bytes of the
nonce, seal with the remainder of the nonce and the DER-encoded
additional data, and emit the handle record carrying the HMAC key
selector. -/
def sealKey (platformKey : Bytes) (alg : HashAlg) (salt nonce plaintext : Bytes)
    (version generation : Nat) (kdfAlg : HashAlg) (authMode : Nat) :
    Except String (keyData × Bytes) :=
  if alg.avail = true then
    match aesNewCipher (deriveAESKey platformKey (nonce.take symKeySaltSize)) with
    | .error e => .error e
    | .ok b =>
      match gcmNew b (nonce.drop symKeySaltSize).length with
      | .error e => .error e
      | .ok g =>
        .ok (⟨version, ⟨alg, salt, hmacSum alg platformKey salt⟩, nonce⟩,
          gcmSeal g (nonce.drop symKeySaltSize) plaintext
            (marshalAAD ⟨version, generation, kdfAlg, authMode⟩))
  else .error "digest algorithm unavailable"

/-! ### Helper lemmas -/

theorem hmacSum_key_inj (alg : HashAlg) (msg k1 k2 : Bytes)
    (h : hmacSum alg k1 msg = hmacSum alg k2 msg) : k1 = k2 := by
  simp only [hmacSum, List.cons.injEq] at h
  exact (List.append_inj h.2.2 h.2.1).1

theorem deriveAESKey_length (key salt : Bytes) : (deriveAESKey key salt).length = 32 := by
  simp [deriveAESKey]

theorem aesNewCipher_derive (key salt : Bytes) :
    aesNewCipher (deriveAESKey key salt) = .ok ⟨deriveAESKey key salt⟩ := by
  simp [aesNewCipher, deriveAESKey_length]

theorem gcmNew_ok (b : AESBlock) (size : Nat) (h : size ≠ 0) :
    gcmNew b size = .ok ⟨b.key, size⟩ := by
  simp [gcmNew, h]

theorem gcmOpen_gcmSeal (g : GCM) (nonce plaintext aad : Bytes)
    (h : nonce.length = g.nonceSize) :
    gcmOpen g nonce (gcmSeal g nonce plaintext aad) aad = some plaintext := by
  simp [gcmOpen, gcmSeal, List.append_assoc, List.take_left, List.drop_left, h]

theorem findMatchingKey_mem (alg : HashAlg) (salt pk : Bytes) (keys : List Bytes)
    (hmem : pk ∈ keys) :
    findMatchingKey ⟨alg, salt, hmacSum alg pk salt⟩ keys = .ok pk := by
  induction keys with
  | nil => cases hmem
  | cons k rest ih =>
    by_cases hk : hmacSum alg k salt = hmacSum alg pk salt
    · have hkpk : k = pk := hmacSum_key_inj alg salt k pk hk
      simp [findMatchingKey, hk, hkpk]
    · have hrest : pk ∈ rest := by
        rcases List.mem_cons.mp hmem with h | h
        · exact absurd (by rw [h]) hk
        · exact h
      simp [findMatchingKey, hk, ih hrest]

/-! ### Claim theorems -/

/-- C2: for every `platformKeyId` with an available digest algorithm and
every store contents, `getPlatformKey` scans the stored keys in
insertion order, computes `HMAC_alg(key, salt)` for each, and returns
the first key whose HMAC equals the digest; with no match it fails with
"no key available". In particular a non-matching key ahead of a
matching one does not prevent the match (first-match semantics of
`List.find?`). -/
theorem getPlatformKey_first_match (keys : List Bytes) (id : platformKeyId)
    (hav : id.Alg.avail = true) :
    getPlatformKey keys id =
      match keys.find? (fun k => hmacSum id.Alg k id.Salt == id.Digest) with
      | some k => .ok k
      | none => .error "no key available" := by
  simp only [getPlatformKey, hav, if_true]
  induction keys with
  | nil => rfl
  | cons k rest ih =>
    by_cases hk : hmacSum id.Alg k id.Salt = id.Digest
    · simp [findMatchingKey, List.find?, hk]
    · have hb : (hmacSum id.Alg k id.Salt == id.Digest) = false :=
        beq_eq_false_iff_ne.mpr hk
      simp [findMatchingKey, List.find?, hk, hb, ih]

/-- Witness for C2: with store `[[1], [2]]` and an ID addressing `[2]`,
the selector skips the non-matching `[1]` and returns `[2]`. -/
theorem getPlatformKey_first_match_witness :
    (HashAlg.sha256.avail = true) ∧
    getPlatformKey [[1], [2]] ⟨.sha256, [9], hmacSum .sha256 [2] [9]⟩ = .ok [2] := by
  refine ⟨rfl, ?_⟩
  have h := getPlatformKey_first_match [[1], [2]]
    ⟨.sha256, [9], hmacSum .sha256 [2] [9]⟩ rfl
  simpa [hmacSum, HashAlg.wireId] using h

/-- C4: a handle that fails to parse makes `RecoverKeys` return an
`InvalidData` `PlatformHandlerError` wrapping the parse failure, and a
parsed handle whose nonce is shorter than `symKeySaltSize` makes it
return an `InvalidData` error with message "invalid nonce size"; in
both cases the result is the same for every store contents and every
payload, so no key selection, key derivation or decryption is
attempted. -/
theorem recoverKeys_early_reject (data : PlatformKeyData) :
    (∀ e, jsonUnmarshalKeyData data.EncodedHandle = .error e →
      ∀ keys ct, RecoverKeys keys data ct = .error (.handler ⟨.invalidData, e⟩)) ∧
    (∀ kd, jsonUnmarshalKeyData data.EncodedHandle = .ok kd →
      kd.Nonce.length < symKeySaltSize →
      ∀ keys ct, RecoverKeys keys data ct =
        .error (.handler ⟨.invalidData, "invalid nonce size"⟩)) := by
  constructor
  · intro e he keys ct
    simp [RecoverKeys, he]
  · intro kd hkd hlen keys ct
    simp [RecoverKeys, hkd, hlen]

/-- Witness for C4: a malformed handle and a well-formed handle with an
empty nonce are both rejected, with the stated errors. -/
theorem recoverKeys_early_reject_witness :
    RecoverKeys [] ⟨.malformed "bad json", 1, .sha256, 0⟩ [] =
      .error (.handler ⟨.invalidData, "bad json"⟩) ∧
    RecoverKeys [[5]] ⟨.wellFormed ⟨1, ⟨.sha256, [], []⟩, []⟩, 1, .sha256, 0⟩ [3] =
      .error (.handler ⟨.invalidData, "invalid nonce size"⟩) :=
  ⟨(recoverKeys_early_reject ⟨.malformed "bad json", 1, .sha256, 0⟩).1 "bad json" rfl [] [],
   (recoverKeys_early_reject ⟨.wellFormed ⟨1, ⟨.sha256, [], []⟩, []⟩, 1, .sha256, 0⟩).2
     ⟨1, ⟨.sha256, [], []⟩, []⟩ rfl (by decide) [[5]] [3]⟩

/-- C8: `RecoverKeysWithAuthKey` and `ChangeAuthKey` return a nil
result and the plain (unwrapped) error "unsupported action" for every
input whatsoever, without inspecting their inputs. -/
theorem unsupported_actions (data data2 : PlatformKeyData)
    (encryptedPayload key old new : Bytes) :
    RecoverKeysWithAuthKey data encryptedPayload key =
      .error (.plain "unsupported action") ∧
    ChangeAuthKey data2 old new = .error (.plain "unsupported action") :=
  ⟨rfl, rfl⟩

/-- C10: neither `RecoverKeys` nor `getPlatformKey` ever mutates the
platform-key store: threading the process-wide `platformKeys` variable
through the embedding, the state coming out of any call equals the
state going in, for every input and prior store contents. -/
theorem recoverKeys_preserves_store (st : List Bytes) (data : PlatformKeyData)
    (ct : Bytes) (id : platformKeyId) :
    (RecoverKeysS st data ct).1 = st ∧ (getPlatformKeyS st id).1 = st := by
  refine ⟨?_, rfl⟩
  simp only [RecoverKeysS, getPlatformKeyS]
  repeat' split
  all_goals rfl

/-- C1: every envelope produced by the sealing construction (AES-GCM
seal under `deriveAESKey(platformKey, nonce[0:symKeySaltSize])`, GCM
nonce `nonce[symKeySaltSize:]`, AAD the DER encoding of
`{version, generation, kdfAlg, authMode}`) is recovered bit-for-bit by
`RecoverKeys` whenever the same platform key is present in the store. -/
theorem recoverKeys_roundtrip (keys : List Bytes)
    (platformKey salt nonce plaintext : Bytes)
    (version generation authMode : Nat) (alg kdfAlg : HashAlg)
    (kd : keyData) (ct : Bytes)
    (hseal : sealKey platformKey alg salt nonce plaintext version generation
      kdfAlg authMode = .ok (kd, ct))
    (hmem : platformKey ∈ keys) :
    RecoverKeys keys ⟨.wellFormed kd, generation, kdfAlg, authMode⟩ ct = .ok plaintext := by
  rw [sealKey] at hseal
  by_cases hav : alg.avail = true
  case neg => simp [hav] at hseal
  rw [if_pos hav] at hseal
  simp only [aesNewCipher_derive] at hseal
  by_cases hz : (nonce.drop symKeySaltSize).length = 0
  · simp [gcmNew, hz] at hseal
  · simp only [gcmNew_ok _ _ hz, Except.ok.injEq, Prod.mk.injEq] at hseal
    obtain ⟨hkd, hct⟩ := hseal
    subst hkd
    subst hct
    have hnl : ¬ (nonce.length < symKeySaltSize) := by
      rw [List.length_drop] at hz
      omega
    simp only [RecoverKeys, jsonUnmarshalKeyData, builderBytes, getPlatformKey,
      hav, if_true, hnl, if_false, ite_false,
      findMatchingKey_mem alg salt platformKey keys hmem,
      aesNewCipher_derive, gcmNew_ok _ _ hz]
    have hopen := gcmOpen_gcmSeal
      ⟨deriveAESKey platformKey (nonce.take symKeySaltSize), (nonce.drop symKeySaltSize).length⟩
      (nonce.drop symKeySaltSize) plaintext
      (marshalAAD ⟨version, generation, kdfAlg, authMode⟩) rfl
    rw [hopen]

/-- C3: for a successfully parsed handle and selected platform key (and
a nonce longer than the KDF-salt prefix, so the AEAD construction
accepts its length), `RecoverKeys` derives the AES key as
`deriveAESKey(key, kd.Nonce[0:symKeySaltSize])`, constructs the AEAD
to accept exactly the length of the remaining bytes
`kd.Nonce[symKeySaltSize:]` as its nonce size, and its outcome is
exactly that of opening the payload with that key and that nonce. -/
theorem recoverKeys_derived_key_nonce (keys : List Bytes) (data : PlatformKeyData)
    (ct : Bytes) (kd : keyData) (key : Bytes)
    (hparse : jsonUnmarshalKeyData data.EncodedHandle = .ok kd)
    (hsel : getPlatformKey keys kd.PlatformKeyID = .ok key)
    (hpos : symKeySaltSize < kd.Nonce.length) :
    gcmNew ⟨deriveAESKey key (kd.Nonce.take symKeySaltSize)⟩
        (kd.Nonce.drop symKeySaltSize).length =
      .ok ⟨deriveAESKey key (kd.Nonce.take symKeySaltSize),
        (kd.Nonce.drop symKeySaltSize).length⟩ ∧
    RecoverKeys keys data ct =
      match gcmOpen
          ⟨deriveAESKey key (kd.Nonce.take symKeySaltSize),
            (kd.Nonce.drop symKeySaltSize).length⟩
          (kd.Nonce.drop symKeySaltSize) ct
          (marshalAAD ⟨kd.Version, data.Generation, data.KDFAlg, data.AuthMode⟩) with
      | none => .error (.handler ⟨.invalidData, "cannot open payload: " ++ authFailMsg⟩)
      | some payload => .ok payload := by
  have hz : (kd.Nonce.drop symKeySaltSize).length ≠ 0 := by
    rw [List.length_drop]
    omega
  have hnl : ¬ (kd.Nonce.length < symKeySaltSize) := by omega
  refine ⟨gcmNew_ok _ _ hz, ?_⟩
  simp only [RecoverKeys, hparse, builderBytes, hsel, aesNewCipher_derive,
    gcmNew_ok _ _ hz, hnl, if_false, ite_false]

/-- C9: a well-formed handle whose nonce length is exactly
`symKeySaltSize` passes the nonce-size check, but once a platform key
has been selected the AEAD construction is asked for a zero-length
nonce and fails, and `RecoverKeys` returns the plain (unwrapped) error
"cannot create AEAD: ..." for every payload, so no decryption is
attempted. -/
theorem recoverKeys_saltOnly_nonce (keys : List Bytes) (data : PlatformKeyData)
    (ct : Bytes) (kd : keyData) (key : Bytes)
    (hparse : jsonUnmarshalKeyData data.EncodedHandle = .ok kd)
    (hlen : kd.Nonce.length = symKeySaltSize)
    (hsel : getPlatformKey keys kd.PlatformKeyID = .ok key) :
    RecoverKeys keys data ct =
      .error (.plain ("cannot create AEAD: " ++ "cipher: the nonce cannot have zero length")) := by
  have hnl : ¬ (kd.Nonce.length < symKeySaltSize) := by omega
  have hz : (kd.Nonce.drop symKeySaltSize).length = 0 := by
    rw [List.length_drop]
    omega
  simp only [RecoverKeys, hparse, builderBytes, hsel, aesNewCipher_derive,
    hnl, if_false, ite_false, hz, gcmNew, if_pos]

/-- C5: every error returned by `RecoverKeys` falls into exactly the
documented classes: `PlatformHandlerError` with type `InvalidData` for
the input-attributable failures (JSON parse error, "invalid nonce
size", prefixes "cannot serialize AAD", "cannot select platform key",
"cannot open payload"), and plain unwrapped errors only for cipher
construction ("cannot create cipher") and AEAD construction
("cannot create AEAD"). -/
theorem recoverKeys_error_classes (keys : List Bytes) (data : PlatformKeyData)
    (ct : Bytes) (e : RecoverError)
    (he : RecoverKeys keys data ct = .error e) :
    (∃ msg, e = .handler ⟨.invalidData, msg⟩ ∧
      (jsonUnmarshalKeyData data.EncodedHandle = .error msg ∨
       msg = "invalid nonce size" ∨
       (∃ s, msg = "cannot serialize AAD: " ++ s) ∨
       (∃ s, msg = "cannot select platform key: " ++ s) ∨
       (∃ s, msg = "cannot open payload: " ++ s))) ∨
    (∃ s, e = .plain ("cannot create cipher: " ++ s)) ∨
    (∃ s, e = .plain ("cannot create AEAD: " ++ s)) := by
  cases hj : jsonUnmarshalKeyData data.EncodedHandle with
  | error msg =>
    simp only [RecoverKeys, hj] at he
    injection he with h
    subst h
    exact Or.inl ⟨msg, rfl, Or.inl rfl⟩
  | ok kd =>
    by_cases hlen : kd.Nonce.length < symKeySaltSize
    · simp only [RecoverKeys, hj, if_pos hlen] at he
      injection he with h
      subst h
      exact Or.inl ⟨_, rfl, Or.inr (Or.inl rfl)⟩
    · cases hsel : getPlatformKey keys kd.PlatformKeyID with
      | error msg =>
        simp only [RecoverKeys, hj, if_neg hlen, builderBytes, hsel] at he
        injection he with h
        subst h
        exact Or.inl ⟨_, rfl, Or.inr (Or.inr (Or.inr (Or.inl ⟨msg, rfl⟩)))⟩
      | ok key =>
        cases hc : aesNewCipher (deriveAESKey key (kd.Nonce.take symKeySaltSize)) with
        | error msg =>
          simp only [RecoverKeys, hj, if_neg hlen, builderBytes, hsel, hc] at he
          injection he with h
          subst h
          exact Or.inr (Or.inl ⟨msg, rfl⟩)
        | ok b =>
          cases hg : gcmNew b (kd.Nonce.drop symKeySaltSize).length with
          | error msg =>
            simp only [RecoverKeys, hj, if_neg hlen, builderBytes, hsel, hc, hg] at he
            injection he with h
            subst h
            exact Or.inr (Or.inr ⟨msg, rfl⟩)
          | ok g =>
            cases ho : gcmOpen g (kd.Nonce.drop symKeySaltSize) ct
                (marshalAAD ⟨kd.Version, data.Generation, data.KDFAlg, data.AuthMode⟩) with
            | none =>
              simp only [RecoverKeys, hj, if_neg hlen, builderBytes, hsel, hc, hg, ho] at he
              injection he with h
              subst h
              exact Or.inl ⟨_, rfl, Or.inr (Or.inr (Or.inr (Or.inr ⟨authFailMsg, rfl⟩)))⟩
            | some payload =>
              simp only [RecoverKeys, hj, if_neg hlen, builderBytes, hsel, hc, hg, ho] at he
              exact (Except.noConfusion he)

/-! ### Witnesses for the recovery-path claims -/

/-- Nonce for the round-trip witness: 32 salt bytes and 1 GCM-nonce byte. -/
def wNonce : Bytes := List.replicate 33 6

/-- Handle record of the round-trip witness envelope. -/
def wKd : keyData := ⟨1, ⟨.sha256, [4, 5], hmacSum .sha256 [1, 2, 3] [4, 5]⟩, wNonce⟩

/-- Ciphertext of the round-trip witness envelope. -/
def wCt : Bytes :=
  gcmSeal ⟨deriveAESKey [1, 2, 3] (wNonce.take symKeySaltSize),
      (wNonce.drop symKeySaltSize).length⟩
    (wNonce.drop symKeySaltSize) [9, 9] (marshalAAD ⟨1, 2, .sha256, 0⟩)

/-- Witness for C1: a concrete envelope sealed under the platform key
`[1, 2, 3]` is recovered bit-for-bit, even though a non-matching key
`[7]` sits first in the store. -/
theorem recoverKeys_roundtrip_witness :
    sealKey [1, 2, 3] .sha256 [4, 5] wNonce [9, 9] 1 2 .sha256 0 = .ok (wKd, wCt) ∧
    RecoverKeys [[7], [1, 2, 3]] ⟨.wellFormed wKd, 2, .sha256, 0⟩ wCt = .ok [9, 9] :=
  ⟨rfl, recoverKeys_roundtrip [[7], [1, 2, 3]] [1, 2, 3] [4, 5] wNonce [9, 9] 1 2 0
    .sha256 .sha256 wKd wCt rfl (by decide)⟩

/-- Handle record for the C3 witness: a 40-byte nonce, so an 8-byte GCM
nonce remains after the salt prefix. -/
def w3Kd : keyData := ⟨1, ⟨.sha256, [2], hmacSum .sha256 [1] [2]⟩, List.replicate 40 3⟩

/-- Witness for C3: with a selected key and an 8-byte GCM nonce the
recovery outcome is exactly the AEAD open outcome (here an empty
ciphertext, so an authentication failure). -/
theorem recoverKeys_derived_key_nonce_witness :
    RecoverKeys [[1]] ⟨.wellFormed w3Kd, 5, .sha512, 7⟩ [] =
      .error (.handler ⟨.invalidData, "cannot open payload: " ++ authFailMsg⟩) := by
  have h := recoverKeys_derived_key_nonce [[1]] ⟨.wellFormed w3Kd, 5, .sha512, 7⟩ []
    w3Kd [1] rfl rfl (by decide)
  simpa [gcmOpen] using h.2

/-- Handle record for the C9 witness: the nonce is exactly the 32-byte
salt prefix, leaving a zero-length GCM nonce. -/
def w9Kd : keyData := ⟨1, ⟨.sha256, [2], hmacSum .sha256 [1] [2]⟩, List.replicate 32 3⟩

/-- Witness for C9: a stored matching key and a salt-only nonce yield
the plain (unwrapped) AEAD-construction error. -/
theorem recoverKeys_saltOnly_nonce_witness :
    RecoverKeys [[1]] ⟨.wellFormed w9Kd, 0, .sha256, 0⟩ [4] =
      .error (.plain ("cannot create AEAD: " ++ "cipher: the nonce cannot have zero length")) :=
  recoverKeys_saltOnly_nonce [[1]] ⟨.wellFormed w9Kd, 0, .sha256, 0⟩ [4] w9Kd [1]
    rfl (by decide) rfl

/-- Witness for C5: the error produced by a malformed handle falls into
the documented classification. -/
theorem recoverKeys_error_classes_witness :
    (∃ msg, (RecoverError.handler ⟨.invalidData, "bad"⟩) = .handler ⟨.invalidData, msg⟩ ∧
      (jsonUnmarshalKeyData (PlatformKeyData.mk (.malformed "bad") 0 .sha256 0).EncodedHandle
          = .error msg ∨
       msg = "invalid nonce size" ∨
       (∃ s, msg = "cannot serialize AAD: " ++ s) ∨
       (∃ s, msg = "cannot select platform key: " ++ s) ∨
       (∃ s, msg = "cannot open payload: " ++ s))) ∨
    (∃ s, (RecoverError.handler ⟨.invalidData, "bad"⟩ : RecoverError)
      = .plain ("cannot create cipher: " ++ s)) ∨
    (∃ s, (RecoverError.handler ⟨.invalidData, "bad"⟩ : RecoverError)
      = .plain ("cannot create AEAD: " ++ s)) :=
  recoverKeys_error_classes [] ⟨.malformed "bad", 0, .sha256, 0⟩ []
    (.handler ⟨.invalidData, "bad"⟩) rfl

/-! ### Store snapshot isolation -/

theorem take_exact_append (a b c : List Bytes) (m : Nat) (h : a.length = m) :
    (a ++ (b ++ c)).take (m + b.length) = a ++ b := by
  subst h
  rw [← List.append_assoc, ← List.length_append, List.take_left]

/-- Compatibility of a previously taken snapshot header with the
current store state: the header points into an allocated array, fits
its backing buffer, and, when it shares the current array of the store, it
covers no more than the current extent of the store. -/
def SnapOK (σ : StoreState) (s : GoSlice) : Prop :=
  s.arr < σ.heap.next ∧ s.len ≤ (σ.heap.arrays s.arr).length ∧
    (s.arr = σ.store.arr → s.len ≤ σ.store.len)

theorem applyOp_frame (σ : StoreState) (op : StoreOp) (s : GoSlice)
    (hwf : WFStore σ) (hs : SnapOK σ s) :
    view (applyOp σ op).heap s = view σ.heap s ∧
      WFStore (applyOp σ op) ∧ SnapOK (applyOp σ op) s := by
  obtain ⟨hwa, hwl⟩ := hwf
  obtain ⟨hsa, hsl, hpre⟩ := hs
  cases op with
  | set ks =>
    have hne : s.arr ≠ σ.heap.next := Nat.ne_of_lt hsa
    refine ⟨?_, ⟨?_, ?_⟩, ?_, ?_, ?_⟩
    · simp [applyOp, setPlatformKeysH, view, updArr, hne]
    · simp [applyOp, setPlatformKeysH, WFStore]
    · simp [applyOp, setPlatformKeysH, updArr]
    · simp only [applyOp, setPlatformKeysH]
      omega
    · simpa [applyOp, setPlatformKeysH, updArr, hne] using hsl
    · intro h
      simp only [applyOp, setPlatformKeysH] at h
      omega
  | add ks =>
    by_cases hcap : σ.store.len + ks.length ≤ (σ.heap.arrays σ.store.arr).length
    · -- in-place append into the spare capacity of the backing array
      have hbuflen : ((σ.heap.arrays σ.store.arr).take σ.store.len ++ ks
          ++ (σ.heap.arrays σ.store.arr).drop (σ.store.len + ks.length)).length
          = (σ.heap.arrays σ.store.arr).length := by
        simp only [List.length_append, List.length_take, List.length_drop]
        omega
      refine ⟨?_, ⟨?_, ?_⟩, ?_, ?_, ?_⟩
      · by_cases heq : s.arr = σ.store.arr
        · have hps : s.len ≤ σ.store.len := hpre heq
          have h1 : s.len ≤ ((σ.heap.arrays σ.store.arr).take σ.store.len).length := by
            simp only [List.length_take]
            omega
          simp only [applyOp, addPlatformKeysH, hcap, if_pos, view, updArr, heq, if_true]
          rw [List.append_assoc, List.take_append_of_le_length h1, List.take_take,
            Nat.min_eq_left hps]
        · simp [applyOp, addPlatformKeysH, hcap, view, updArr, heq]
      · simpa [applyOp, addPlatformKeysH, hcap] using hwa
      · simp only [applyOp, addPlatformKeysH, hcap, if_pos, updArr, if_true]
        rw [hbuflen]
        exact hcap
      · simpa [applyOp, addPlatformKeysH, hcap] using hsa
      · by_cases heq : s.arr = σ.store.arr
        · simp only [applyOp, addPlatformKeysH, hcap, if_pos, updArr, heq, if_true]
          rw [hbuflen]
          rw [heq] at hsl
          exact hsl
        · simpa [applyOp, addPlatformKeysH, hcap, updArr, heq] using hsl
      · intro h
        simp only [applyOp, addPlatformKeysH, hcap, if_pos] at h ⊢
        have := hpre (by simpa using h)
        omega
    · -- reallocation: a fresh, larger backing array is allocated
      have hne : s.arr ≠ σ.heap.next := Nat.ne_of_lt hsa
      have hvl : (view σ.heap σ.store).length = σ.store.len := by
        simp only [view, List.length_take]
        omega
      refine ⟨?_, ⟨?_, ?_⟩, ?_, ?_, ?_⟩
      · simp [applyOp, addPlatformKeysH, hcap, view, updArr, hne]
      · simp [applyOp, addPlatformKeysH, hcap]
      · simp only [applyOp, addPlatformKeysH, hcap, if_neg, updArr, if_false, ite_false,
          if_true, if_pos, List.length_append, List.length_replicate]
        simp only [hvl]
        omega
      · simp only [applyOp, addPlatformKeysH, hcap, if_neg, ite_false]
        omega
      · simpa [applyOp, addPlatformKeysH, hcap, updArr, hne] using hsl
      · intro h
        simp only [applyOp, addPlatformKeysH, hcap, if_neg, ite_false] at h
        omega

theorem view_applyOps (ops : List StoreOp) : ∀ (σ : StoreState) (s : GoSlice),
    WFStore σ → SnapOK σ s →
    view (applyOps σ ops).heap s = view σ.heap s := by
  induction ops with
  | nil =>
    intro σ s _ _
    rfl
  | cons op rest ih =>
    intro σ s hwf hs
    obtain ⟨hv, hwf2, hs2⟩ := applyOp_frame σ op s hwf hs
    calc view (applyOps (applyOp σ op) rest).heap s
        = view (applyOp σ op).heap s := ih (applyOp σ op) s hwf2 hs2
      _ = view σ.heap s := hv

/-- C6: a snapshot of the platform-key list taken by a reader before
`Set`/`Add` mutations stays valid and unchanged for the lifetime of the reader: the elements visible through a slice header copied from a
well-formed store state are the same after any sequence of
`SetPlatformKeys`/`AddPlatformKeys` mutations (which never overwrite
the cells a previously taken snapshot can see). -/
theorem store_snapshot_isolation (σ : StoreState) (ops : List StoreOp)
    (hwf : WFStore σ) :
    view (applyOps σ ops).heap σ.store = view σ.heap σ.store :=
  view_applyOps ops σ σ.store hwf ⟨hwf.1, hwf.2, fun _ => Nat.le_refl _⟩

/-- Concrete store state for the mutation witnesses: one allocated
array holding the single key `[5]`. -/
def wStore : StoreState :=
  ⟨⟨fun i => if i = 0 then [[5]] else [], 1⟩, ⟨0, 1⟩⟩

/-- Witness for C6: a snapshot of `wStore` still shows `[[5]]` after an
`Add` (which reallocates here) followed by a `Set`. -/
theorem store_snapshot_isolation_witness :
    WFStore wStore ∧
    view (applyOps wStore [.add [[6]], .set [[7]]]).heap wStore.store =
      view wStore.heap wStore.store := by
  have hwf : WFStore wStore := ⟨Nat.one_pos, by simp [wStore]⟩
  exact ⟨hwf, store_snapshot_isolation wStore [.add [[6]], .set [[7]]] hwf⟩

/-- C7: `SetPlatformKeys` leaves the store holding exactly the argument
sequence, discarding all previously stored keys, and `AddPlatformKeys`
leaves it holding the previous contents followed by the argument keys
in order, with the previously stored prefix unchanged. -/
theorem setAdd_store_contents (σ : StoreState) (ks : List Bytes) (hwf : WFStore σ) :
    view (setPlatformKeysH σ ks).heap (setPlatformKeysH σ ks).store = ks ∧
    view (addPlatformKeysH σ ks).heap (addPlatformKeysH σ ks).store =
      view σ.heap σ.store ++ ks := by
  obtain ⟨hwa, hwl⟩ := hwf
  constructor
  · simp [setPlatformKeysH, view, updArr]
  · by_cases hcap : σ.store.len + ks.length ≤ (σ.heap.arrays σ.store.arr).length
    · have h1 : ((σ.heap.arrays σ.store.arr).take σ.store.len).length = σ.store.len := by
        simp only [List.length_take]
        omega
      simp only [addPlatformKeysH, hcap, if_pos, view, updArr, if_true]
      rw [List.append_assoc, take_exact_append _ _ _ _ h1]
    · have h1 : ((σ.heap.arrays σ.store.arr).take σ.store.len).length = σ.store.len := by
        simp only [List.length_take]
        omega
      simp only [addPlatformKeysH, hcap, if_neg, ite_false, view, updArr, if_true, if_pos]
      rw [List.append_assoc, take_exact_append _ _ _ _ h1]

/-- Witness for C7: setting `wStore` to `[[1], [2]]` yields exactly
that list, and adding `[[9]]` appends it to the existing `[[5]]`. -/
theorem setAdd_store_contents_witness :
    view (setPlatformKeysH wStore [[1], [2]]).heap (setPlatformKeysH wStore [[1], [2]]).store
      = [[1], [2]] ∧
    view (addPlatformKeysH wStore [[9]]).heap (addPlatformKeysH wStore [[9]]).store
      = [[5], [9]] := by
  have hwf : WFStore wStore := ⟨Nat.one_pos, by simp [wStore]⟩
  refine ⟨(setAdd_store_contents wStore [[1], [2]] hwf).1, ?_⟩
  have h := (setAdd_store_contents wStore [[9]] hwf).2
  rw [h]
  simp [wStore, view]
